import Mathlib

/-!
Verification of the Materialize coordinator message handlers
(`src/adapter/src/coord/message_handler.rs`).

The development shallowly embeds the handlers that the reviewed claims are
about:

* `message_linearize_reads` — the read-linearization pass (pending read
  transactions, the per-pass oracle cache, the requeue counter, the wake-up
  delay computation);
* `message_write_lock_grant` — the deferred-write FIFO queue;
* `message_cluster_event` — the replica status table and the retract/insert
  diff pairs for the introspection relation;
* `message_purified_statement_ready`, `message_create_connection_validation_ready`,
  `message_alter_connection_validation_ready` — the staged re-entry handlers
  and their PlanValidity re-check behaviour;
* `schedule_storage_usage_collection` — the deterministic scheduling of the
  storage-usage collection chain.

Machine integers (`u64` timestamps, ids) are modelled as `Nat`;
`saturating_sub` on `u64` coincides with truncated `Nat` subtraction.
External collaborators (timestamp oracle, PRNG, secrets controller, the
aggregate replica-status function) are passed in as explicit function or
result parameters, mirroring the calls the handler makes on them.
-/

/-- Association-list lookup, modelling `BTreeMap::get` for the maps the
handlers use (the per-pass oracle cache and the replica status tables). -/
def lookupA {α β : Type} [DecidableEq α] : List (α × β) → α → Option β
  | [], _ => none
  | (k, v) :: rest, key => if k = key then some v else lookupA rest key

theorem lookupA_append_of_some {α β : Type} [DecidableEq α]
    (l l' : List (α × β)) (k : α) (v : β) (h : lookupA l k = some v) :
    lookupA (l ++ l') k = some v := by
  induction l with
  | nil => simp [lookupA] at h
  | cons p rest ih =>
    obtain ⟨pk, pv⟩ := p
    by_cases hk : pk = k
    · subst hk
      simp [lookupA] at h ⊢
      exact h
    · simp [lookupA, hk] at h ⊢
      exact ih h

theorem lookupA_append_of_none {α β : Type} [DecidableEq α]
    (l l' : List (α × β)) (k : α) (h : lookupA l k = none) :
    lookupA (l ++ l') k = lookupA l' k := by
  induction l with
  | nil => simp [lookupA]
  | cons p rest ih =>
    obtain ⟨pk, pv⟩ := p
    by_cases hk : pk = k
    · subst hk
      simp [lookupA] at h
    · simp [lookupA, hk] at h ⊢
      exact ih h

/-! ## Read linearization (`message_linearize_reads`)

Source: `Coordinator::message_linearize_reads`.  A pending read transaction
carries a timestamp context (`TimestampContext`), an opaque transaction
payload, its creation time and a requeue counter.  The pass drains
`pending_linearize_read_txns`, partitions it into ready transactions and
still-pending ones (reinserted with the counter bumped), caching at most one
`read_ts` oracle call per timeline for the duration of the pass. -/

/-- Timestamp context of a read transaction: either a timeline with a chosen
timestamp and an optional oracle snapshot captured at enqueue time, or a
context without a timeline (always ready). -/
inductive TimestampContext where
  | timelineTimestamp (timeline : Nat) (chosenTs : Nat) (oracleTs : Option Nat)
  | noTimestamp
deriving DecidableEq, Repr

/-- Pending read transaction (`PendingReadTxn`): the opaque transaction
payload handed back to the client context, the timestamp context, the
creation time and the requeue counter `num_requeues`. -/
structure PendingReadTxn where
  txn : Nat
  timestampContext : TimestampContext
  created : Nat
  numRequeues : Nat
deriving DecidableEq, Repr

/-- Accumulated state of one linearization pass: the ready transactions, the
reinserted pending map, the per-pass oracle cache `cached_oracle_ts`, and the
`shortest_wait` accumulator (initialized to 0 ms in the source). -/
structure LinearizeReadsResult where
  readyTxns : List PendingReadTxn
  pendingLinearizeReadTxns : List (Nat × PendingReadTxn)
  cachedOracleTs : List (Nat × Nat)
  shortestWait : Nat
deriving DecidableEq, Repr

/-- One iteration of the loop over the drained pending map.  `oracle t` is
the value `read_ts()` returns when the pass fetches the oracle timestamp of
timeline `t` (each timeline is fetched at most once per pass; later reads on
the same timeline reuse the cached value). -/
def linStep (oracle : Nat → Nat) (acc : LinearizeReadsResult)
    (entry : Nat × PendingReadTxn) : LinearizeReadsResult :=
  match entry.2.timestampContext with
  | .timelineTimestamp timeline chosenTs oracleTsOpt =>
    match oracleTsOpt with
    | none =>
      -- There was no oracle timestamp, so no need to delay.
      { acc with readyTxns := acc.readyTxns ++ [entry.2] }
    | some oracleTs =>
      if chosenTs ≤ oracleTs then
        -- Chosen ts was already <= the oracle ts.
        { acc with readyTxns := acc.readyTxns ++ [entry.2] }
      else
        -- Fetch the current oracle ts, at most once per timeline per pass.
        let fetched :=
          match lookupA acc.cachedOracleTs timeline with
          | some v => (v, acc.cachedOracleTs)
          | none => (oracle timeline, acc.cachedOracleTs ++ [(timeline, oracle timeline)])
        let currentOracleTs := fetched.1
        let cache := fetched.2
        if chosenTs ≤ currentOracleTs then
          { acc with readyTxns := acc.readyTxns ++ [entry.2], cachedOracleTs := cache }
        else
          let wait := chosenTs - currentOracleTs
          { acc with
            pendingLinearizeReadTxns := acc.pendingLinearizeReadTxns ++
              [(entry.1, { entry.2 with numRequeues := entry.2.numRequeues + 1 })],
            cachedOracleTs := cache,
            shortestWait := if wait < acc.shortestWait then wait else acc.shortestWait }
  | .noTimestamp =>
    { acc with readyTxns := acc.readyTxns ++ [entry.2] }

/-- The linearization pass: fold `linStep` over the drained pending map,
starting from the empty result with `shortest_wait = 0` ms. -/
def message_linearize_reads (oracle : Nat → Nat)
    (pending : List (Nat × PendingReadTxn)) : LinearizeReadsResult :=
  pending.foldl (linStep oracle) ⟨[], [], [], 0⟩

/-- The wake-up delay the pass schedules: when transactions remain pending,
exactly one deferred `LinearizeReads` message is scheduled after
`min(shortest_wait, 1000)` ms; otherwise no wake-up is scheduled. -/
def linearizeWakeupDelay (r : LinearizeReadsResult) : Option Nat :=
  if r.pendingLinearizeReadTxns.isEmpty then none
  else some (min r.shortestWait 1000)

/-- Readiness of a read transaction relative to the oracle values the pass
would fetch: ready when there is no oracle snapshot, when the chosen
timestamp is at most the snapshot, or when it is at most the fetched oracle
timestamp of its timeline. -/
def readyPred (oracle : Nat → Nat) (txn : PendingReadTxn) : Bool :=
  match txn.timestampContext with
  | .timelineTimestamp timeline chosenTs (some oracleTs) =>
    chosenTs ≤ oracleTs || chosenTs ≤ oracle timeline
  | _ => true

/-- The timeline whose oracle value the pass must consult for this
transaction (present exactly when the context has an oracle snapshot the
chosen timestamp exceeds). -/
def fetchTimeline (txn : PendingReadTxn) : Option Nat :=
  match txn.timestampContext with
  | .timelineTimestamp timeline chosenTs (some oracleTs) =>
    if chosenTs ≤ oracleTs then none else some timeline
  | _ => none

/-- Output of a ready transaction in the partition view of the pass. -/
def readyOut (oracle : Nat → Nat) (entry : Nat × PendingReadTxn) :
    Option PendingReadTxn :=
  if readyPred oracle entry.2 then some entry.2 else none

/-- Output of a still-pending transaction in the partition view of the pass:
kept under its connection id with the requeue counter bumped by one. -/
def pendOut (oracle : Nat → Nat) (entry : Nat × PendingReadTxn) :
    Option (Nat × PendingReadTxn) :=
  if readyPred oracle entry.2 then none
  else some (entry.1, { entry.2 with numRequeues := entry.2.numRequeues + 1 })

/-- Soundness of the per-pass oracle cache: every cached value is exactly the
oracle read timestamp of its timeline (each timeline is fetched at most once
per pass, so the fetched value is the cached value). -/
def cacheSound (oracle : Nat → Nat) (cache : List (Nat × Nat)) : Prop :=
  ∀ t v, lookupA cache t = some v → v = oracle t

theorem cacheSound_append (oracle : Nat → Nat) (cache : List (Nat × Nat))
    (t : Nat) (hc : cacheSound oracle cache) :
    cacheSound oracle (cache ++ [(t, oracle t)]) := by
  intro t' v hv
  cases hl : lookupA cache t' with
  | some w =>
    have hw := hc t' w hl
    have he := lookupA_append_of_some cache [(t, oracle t)] t' w hl
    rw [he] at hv
    injection hv with hvw
    omega
  | none =>
    rw [lookupA_append_of_none cache [(t, oracle t)] t' hl] at hv
    by_cases ht : t = t'
    · subst ht
      simp [lookupA] at hv
      omega
    · simp [lookupA, ht] at hv

theorem linStep_spec (oracle : Nat → Nat) (acc : LinearizeReadsResult)
    (entry : Nat × PendingReadTxn) (hc : cacheSound oracle acc.cachedOracleTs) :
    (linStep oracle acc entry).readyTxns
        = acc.readyTxns ++ (readyOut oracle entry).toList
    ∧ (linStep oracle acc entry).pendingLinearizeReadTxns
        = acc.pendingLinearizeReadTxns ++ (pendOut oracle entry).toList
    ∧ cacheSound oracle (linStep oracle acc entry).cachedOracleTs
    ∧ (∀ t v, lookupA acc.cachedOracleTs t = some v →
        lookupA (linStep oracle acc entry).cachedOracleTs t = some v)
    ∧ (∀ t, fetchTimeline entry.2 = some t →
        lookupA (linStep oracle acc entry).cachedOracleTs t = some (oracle t)) := by
  obtain ⟨cid, txn⟩ := entry
  obtain ⟨pl, tc, cr, rq⟩ := txn
  cases tc with
  | noTimestamp =>
    refine ⟨?_, ?_, ?_, ?_, ?_⟩
    · simp [linStep, readyOut, readyPred]
    · simp [linStep, pendOut, readyPred]
    · simpa [linStep] using hc
    · intro t v hv
      simpa [linStep] using hv
    · intro t ht
      simp [fetchTimeline] at ht
  | timelineTimestamp t c oOpt =>
    cases oOpt with
    | none =>
      refine ⟨?_, ?_, ?_, ?_, ?_⟩
      · simp [linStep, readyOut, readyPred]
      · simp [linStep, pendOut, readyPred]
      · simpa [linStep] using hc
      · intro t' v hv
        simpa [linStep] using hv
      · intro t' ht
        simp [fetchTimeline] at ht
    | some ots =>
      by_cases h1 : c ≤ ots
      · refine ⟨?_, ?_, ?_, ?_, ?_⟩
        · simp [linStep, readyOut, readyPred, h1]
        · simp [linStep, pendOut, readyPred, h1]
        · simpa [linStep, h1] using hc
        · intro t' v hv
          simpa [linStep, h1] using hv
        · intro t' ht
          simp [fetchTimeline, h1] at ht
      · cases hl : lookupA acc.cachedOracleTs t with
        | some v =>
          have hv : v = oracle t := hc t v hl
          subst hv
          by_cases h2 : c ≤ oracle t
          · refine ⟨?_, ?_, ?_, ?_, ?_⟩
            · simp [linStep, readyOut, readyPred, h1, h2, hl]
            · simp [linStep, pendOut, readyPred, h1, h2, hl]
            · simpa [linStep, h1, h2, hl] using hc
            · intro t' v' hv'
              simpa [linStep, h1, h2, hl] using hv'
            · intro t' ht
              simp [fetchTimeline, h1] at ht
              subst ht
              simp [linStep, h1, h2, hl]
          · refine ⟨?_, ?_, ?_, ?_, ?_⟩
            · simp [linStep, readyOut, readyPred, h1, h2, hl]
            · simp [linStep, pendOut, readyPred, h1, h2, hl]
            · simpa [linStep, h1, h2, hl] using hc
            · intro t' v' hv'
              simpa [linStep, h1, h2, hl] using hv'
            · intro t' ht
              simp [fetchTimeline, h1] at ht
              subst ht
              simp [linStep, h1, h2, hl]
        | none =>
          by_cases h2 : c ≤ oracle t
          · refine ⟨?_, ?_, ?_, ?_, ?_⟩
            · simp [linStep, readyOut, readyPred, h1, h2, hl]
            · simp [linStep, pendOut, readyPred, h1, h2, hl]
            · simpa [linStep, h1, h2, hl] using cacheSound_append oracle _ t hc
            · intro t' v' hv'
              simpa [linStep, h1, h2, hl] using
                lookupA_append_of_some acc.cachedOracleTs [(t, oracle t)] t' v' hv'
            · intro t' ht
              simp [fetchTimeline, h1] at ht
              subst ht
              have := lookupA_append_of_none acc.cachedOracleTs [(t, oracle t)] t hl
              simp [linStep, h1, h2, hl, this, lookupA]
          · refine ⟨?_, ?_, ?_, ?_, ?_⟩
            · simp [linStep, readyOut, readyPred, h1, h2, hl]
            · simp [linStep, pendOut, readyPred, h1, h2, hl]
            · simpa [linStep, h1, h2, hl] using cacheSound_append oracle _ t hc
            · intro t' v' hv'
              simpa [linStep, h1, h2, hl] using
                lookupA_append_of_some acc.cachedOracleTs [(t, oracle t)] t' v' hv'
            · intro t' ht
              simp [fetchTimeline, h1] at ht
              subst ht
              have := lookupA_append_of_none acc.cachedOracleTs [(t, oracle t)] t hl
              simp [linStep, h1, h2, hl, this, lookupA]

theorem linFold_spec (oracle : Nat → Nat) (pending : List (Nat × PendingReadTxn)) :
    ∀ acc : LinearizeReadsResult, cacheSound oracle acc.cachedOracleTs →
    (List.foldl (linStep oracle) acc pending).readyTxns
        = acc.readyTxns ++ pending.filterMap (readyOut oracle)
    ∧ (List.foldl (linStep oracle) acc pending).pendingLinearizeReadTxns
        = acc.pendingLinearizeReadTxns ++ pending.filterMap (pendOut oracle)
    ∧ cacheSound oracle (List.foldl (linStep oracle) acc pending).cachedOracleTs
    ∧ (∀ t v, lookupA acc.cachedOracleTs t = some v →
        lookupA (List.foldl (linStep oracle) acc pending).cachedOracleTs t = some v)
    ∧ (∀ e ∈ pending, ∀ t, fetchTimeline e.2 = some t →
        lookupA (List.foldl (linStep oracle) acc pending).cachedOracleTs t
          = some (oracle t)) := by
  induction pending with
  | nil =>
    intro acc hc
    exact ⟨by simp, by simp, hc, fun t v hv => hv, by simp⟩
  | cons e rest ih =>
    intro acc hc
    obtain ⟨hr, hp, hcs, hmono, hfetch⟩ := linStep_spec oracle acc e hc
    obtain ⟨ir, ip, ics, imono, ifetch⟩ := ih (linStep oracle acc e) hcs
    refine ⟨?_, ?_, ?_, ?_, ?_⟩
    · rw [List.foldl_cons, ir, hr, List.append_assoc]
      congr 1
      cases h : readyOut oracle e <;> simp [List.filterMap_cons, h]
    · rw [List.foldl_cons, ip, hp, List.append_assoc]
      congr 1
      cases h : pendOut oracle e <;> simp [List.filterMap_cons, h]
    · rw [List.foldl_cons]
      exact ics
    · intro t v hv
      rw [List.foldl_cons]
      exact imono t v (hmono t v hv)
    · intro e' he' t ht
      rw [List.foldl_cons]
      rcases List.mem_cons.mp he' with he' | he'
      · subst he'
        exact imono t _ (hfetch t ht)
      · exact ifetch e' he' t ht

theorem linFold_shortestWait_zero (oracle : Nat → Nat)
    (pending : List (Nat × PendingReadTxn)) :
    ∀ acc : LinearizeReadsResult, acc.shortestWait = 0 →
    (List.foldl (linStep oracle) acc pending).shortestWait = 0 := by
  induction pending with
  | nil =>
    intro acc h
    simpa using h
  | cons e rest ih =>
    intro acc h
    rw [List.foldl_cons]
    apply ih
    obtain ⟨cid, txn⟩ := e
    obtain ⟨pl, tc, cr, rq⟩ := txn
    cases tc with
    | noTimestamp => simpa [linStep] using h
    | timelineTimestamp t c oOpt =>
      cases oOpt with
      | none => simpa [linStep] using h
      | some ots =>
        by_cases h1 : c ≤ ots
        · simpa [linStep, h1] using h
        · cases hl : lookupA acc.cachedOracleTs t with
          | some v =>
            by_cases h2 : c ≤ v
            · simpa [linStep, h1, h2, hl] using h
            · simp [linStep, h1, h2, hl, h]
          | none =>
            by_cases h2 : c ≤ oracle t
            · simpa [linStep, h1, h2, hl] using h
            · simp [linStep, h1, h2, hl, h]

theorem readyOut_pendOut_length (oracle : Nat → Nat)
    (pending : List (Nat × PendingReadTxn)) :
    (pending.filterMap (readyOut oracle)).length
      + (pending.filterMap (pendOut oracle)).length = pending.length := by
  induction pending with
  | nil => simp
  | cons e rest ih =>
    by_cases h : readyPred oracle e.2 <;>
      simp [List.filterMap_cons, readyOut, pendOut, h] <;> omega

/-- Whether the timestamp context of a read carries an oracle timestamp
component. -/
def hasOracleTs (txn : PendingReadTxn) : Bool :=
  match txn.timestampContext with
  | .timelineTimestamp _ _ (some _) => true
  | _ => false

/-- Safety condition for releasing a read in one pass: no oracle component,
or chosen timestamp at most the oracle snapshot captured at enqueue time, or
chosen timestamp at most an oracle timestamp recorded in the per-pass cache,
i.e. actually fetched for its timeline during the pass. -/
def releasedSafely (oracle : Nat → Nat) (cache : List (Nat × Nat))
    (txn : PendingReadTxn) : Prop :=
  hasOracleTs txn = false
  ∨ (∃ t c ots, txn.timestampContext = .timelineTimestamp t c (some ots) ∧ c ≤ ots)
  ∨ (∃ t c ots, txn.timestampContext = .timelineTimestamp t c (some ots) ∧
      c ≤ oracle t ∧ lookupA cache t = some (oracle t))

theorem readyPred_mono (oracle oracle' : Nat → Nat)
    (hmono : ∀ t, oracle t ≤ oracle' t) (txn : PendingReadTxn)
    (h : readyPred oracle txn = true) : readyPred oracle' txn = true := by
  obtain ⟨pl, tc, cr, rq⟩ := txn
  cases tc with
  | noTimestamp => simp [readyPred]
  | timelineTimestamp t c oOpt =>
    cases oOpt with
    | none => simp [readyPred]
    | some ots =>
      simp [readyPred] at h ⊢
      rcases h with h | h
      · exact Or.inl h
      · exact Or.inr (le_trans h (hmono t))

/-- C1: every read transaction released during one linearization pass has no
oracle timestamp component, or its chosen timestamp is at most the oracle
snapshot captured at enqueue time, or its chosen timestamp is at most an
oracle read timestamp actually fetched for its timeline during the pass (it
is recorded in the per-pass cache); moreover, replacing any consulted oracle
value by a larger (fresher) one can only enlarge the set of released reads,
so reusing a cached, conservative oracle value can delay a release but never
hasten one. -/
theorem linearize_reads_no_early_release (oracle : Nat → Nat)
    (pending : List (Nat × PendingReadTxn)) :
    (∀ txn ∈ (message_linearize_reads oracle pending).readyTxns,
        releasedSafely oracle
          (message_linearize_reads oracle pending).cachedOracleTs txn)
    ∧ (∀ oracle' : Nat → Nat, (∀ t, oracle t ≤ oracle' t) →
        ∀ txn ∈ (message_linearize_reads oracle pending).readyTxns,
          txn ∈ (message_linearize_reads oracle' pending).readyTxns) := by
  have hinit : cacheSound oracle (LinearizeReadsResult.mk [] [] [] 0).cachedOracleTs := by
    intro t v hv
    simp [lookupA] at hv
  have hspec := linFold_spec oracle pending ⟨[], [], [], 0⟩ hinit
  have hready : (message_linearize_reads oracle pending).readyTxns
      = pending.filterMap (readyOut oracle) := by
    simpa [message_linearize_reads] using hspec.1
  constructor
  · intro txn hmem
    rw [hready] at hmem
    obtain ⟨e, he, hout⟩ := List.mem_filterMap.mp hmem
    have hpred : readyPred oracle e.2 = true := by
      by_contra hnp
      simp [readyOut, hnp] at hout
    have htxn : e.2 = txn := by
      simp [readyOut, hpred] at hout
      exact hout
    subst htxn
    obtain ⟨cid, txn⟩ := e
    obtain ⟨pl, tc, cr, rq⟩ := txn
    cases tc with
    | noTimestamp => exact Or.inl (by simp [hasOracleTs])
    | timelineTimestamp t c oOpt =>
      cases oOpt with
      | none => exact Or.inl (by simp [hasOracleTs])
      | some ots =>
        by_cases h1 : c ≤ ots
        · exact Or.inr (Or.inl ⟨t, c, ots, rfl, h1⟩)
        · refine Or.inr (Or.inr ⟨t, c, ots, rfl, ?_, ?_⟩)
          · simp [readyPred, h1] at hpred
            exact hpred
          · have hft : fetchTimeline (⟨pl, .timelineTimestamp t c (some ots), cr, rq⟩
                : PendingReadTxn) = some t := by
              simp [fetchTimeline, h1]
            simpa [message_linearize_reads] using
              hspec.2.2.2.2 (cid, ⟨pl, .timelineTimestamp t c (some ots), cr, rq⟩) he t hft
  · intro oracle' hmono txn hmem
    have hinit' : cacheSound oracle' (LinearizeReadsResult.mk [] [] [] 0).cachedOracleTs := by
      intro t v hv
      simp [lookupA] at hv
    have hready2 : (message_linearize_reads oracle' pending).readyTxns
        = pending.filterMap (readyOut oracle') := by
      simpa [message_linearize_reads] using
        (linFold_spec oracle' pending ⟨[], [], [], 0⟩ hinit').1
    rw [hready] at hmem
    rw [hready2]
    obtain ⟨e, he, hout⟩ := List.mem_filterMap.mp hmem
    have hpred : readyPred oracle e.2 = true := by
      by_contra hnp
      simp [readyOut, hnp] at hout
    have htxn : e.2 = txn := by
      simp [readyOut, hpred] at hout
      exact hout
    refine List.mem_filterMap.mpr ⟨e, he, ?_⟩
    subst htxn
    simp [readyOut, readyPred_mono oracle oracle' hmono e.2 hpred]

theorem linearize_reads_no_early_release_witness :
    (⟨5, .timelineTimestamp 0 80 (some 70), 0, 0⟩ : PendingReadTxn) ∈
        (message_linearize_reads (fun _ => 90)
          [(1, ⟨5, .timelineTimestamp 0 80 (some 70), 0, 0⟩)]).readyTxns
    ∧ releasedSafely (fun _ => 90)
        (message_linearize_reads (fun _ => 90)
          [(1, ⟨5, .timelineTimestamp 0 80 (some 70), 0, 0⟩)]).cachedOracleTs
        ⟨5, .timelineTimestamp 0 80 (some 70), 0, 0⟩ :=
  ⟨by decide,
    (linearize_reads_no_early_release (fun _ => 90)
      [(1, ⟨5, .timelineTimestamp 0 80 (some 70), 0, 0⟩)]).1
      ⟨5, .timelineTimestamp 0 80 (some 70), 0, 0⟩ (by decide)⟩

/-- C6: one linearization pass partitions the reads pending at its start:
the released transactions are exactly those satisfying the readiness
predicate, kept unchanged and in order; the still-pending map holds exactly
the others, under their connection ids, with the requeue counter bumped by
exactly one; and the two sides together account for every pending read (no
read is lost and none is released more than once). -/
theorem linearize_reads_partition (oracle : Nat → Nat)
    (pending : List (Nat × PendingReadTxn)) :
    (message_linearize_reads oracle pending).readyTxns
        = pending.filterMap (readyOut oracle)
    ∧ (message_linearize_reads oracle pending).pendingLinearizeReadTxns
        = pending.filterMap (pendOut oracle)
    ∧ (message_linearize_reads oracle pending).readyTxns.length
        + (message_linearize_reads oracle pending).pendingLinearizeReadTxns.length
        = pending.length := by
  have hinit : cacheSound oracle (LinearizeReadsResult.mk [] [] [] 0).cachedOracleTs := by
    intro t v hv
    simp [lookupA] at hv
  have hspec := linFold_spec oracle pending ⟨[], [], [], 0⟩ hinit
  have h1 : (message_linearize_reads oracle pending).readyTxns
      = pending.filterMap (readyOut oracle) := by
    simpa [message_linearize_reads] using hspec.1
  have h2 : (message_linearize_reads oracle pending).pendingLinearizeReadTxns
      = pending.filterMap (pendOut oracle) := by
    simpa [message_linearize_reads] using hspec.2.1
  refine ⟨h1, h2, ?_⟩
  rw [h1, h2]
  exact readyOut_pendOut_length oracle pending

/-- C7: the wake-up delay scheduled when reads remain pending after a pass
never exceeds 1000 ms, whatever the oracle values and pending reads are. -/
theorem linearize_wakeup_delay_capped (oracle : Nat → Nat)
    (pending : List (Nat × PendingReadTxn)) (d : Nat)
    (h : linearizeWakeupDelay (message_linearize_reads oracle pending) = some d) :
    d ≤ 1000 := by
  unfold linearizeWakeupDelay at h
  split at h
  · exact absurd h (by simp)
  · injection h with h
    omega

theorem linearize_wakeup_delay_capped_witness :
    linearizeWakeupDelay (message_linearize_reads (fun _ => 90)
      [(1, ⟨0, .timelineTimestamp 0 100 (some 90), 0, 0⟩)]) = some 0
    ∧ (0 : Nat) ≤ 1000 :=
  ⟨by decide,
    linearize_wakeup_delay_capped (fun _ => 90)
      [(1, ⟨0, .timelineTimestamp 0 100 (some 90), 0, 0⟩)] 0 (by decide)⟩

/-- C4: the claim fails on the code.  The `shortest_wait` accumulator is
initialized to 0 ms and only ever replaced by a strictly smaller wait, so it
stays 0 in every pass; consequently the scheduled wake-up delay is
`min(0, 1000) = 0` ms even when the true minimum wait across still-pending
reads is positive.  Concretely, a single pending read with chosen timestamp
100, enqueue-time oracle snapshot 90 and fetched oracle timestamp 90 has
wait 10 ms, yet the pass schedules the wake-up after 0 ms, not after
`min(10, 1000) = 10` ms as the claim requires. -/
theorem linearize_shortest_wait_stuck_at_zero :
    (∀ (oracle : Nat → Nat) (pending : List (Nat × PendingReadTxn)),
        (message_linearize_reads oracle pending).shortestWait = 0)
    ∧ linearizeWakeupDelay (message_linearize_reads (fun _ => 90)
        [(1, ⟨0, .timelineTimestamp 0 100 (some 90), 0, 0⟩)]) = some 0
    ∧ (100 : Nat) - 90 = 10 := by
  refine ⟨?_, by decide, by decide⟩
  intro oracle pending
  exact linFold_shortestWait_zero oracle pending ⟨[], [], [], 0⟩ rfl

/-! ## Write-lock grants (`message_write_lock_grant`)

Source: `Coordinator::message_write_lock_grant`.  On a grant, the handler
pops at most one entry from the front of `write_lock_wait_group`.  A popped
deferred plan first re-checks its `PlanValidity`; on failure it is retired
with that error (and no further entry is consumed), otherwise sequencing
resumes with an empty set of resolved ids.  A popped deferred group commit
initiates group commit.  An empty queue makes the grant a no-op (the guard
drop releases the lock). -/

/-- Entry of the deferred write queue (`Deferred`): a fully planned statement
together with the outcome its validity re-check will produce against the
current catalog, or a pending group-commit request. -/
inductive Deferred where
  | plan (validityCheck : Except Nat Unit) (planPayload : Nat) (ctxId : Nat)
  | groupCommit
deriving Repr

/-- Observable effect of handling one `WriteLockGrant` message. -/
inductive WriteLockGrantAction where
  | noop
  | retireErr (ctxId e : Nat)
  | sequencePlan (ctxId planPayload : Nat) (resolvedIds : List Nat)
  | groupCommitInitiate
deriving Repr

/-- Effect of resuming one popped deferred entry. -/
def deferredAction : Deferred → WriteLockGrantAction
  | .plan (.error e) _ c => .retireErr c e
  | .plan (.ok _) p c => .sequencePlan c p []
  | .groupCommit => .groupCommitInitiate

/-- Handling one `WriteLockGrant`: pop at most one entry from the head of
the deferred queue and resume it; an empty queue is a no-op. -/
def message_write_lock_grant : List Deferred → List Deferred × WriteLockGrantAction
  | [] => ([], .noop)
  | d :: rest => (rest, deferredAction d)

/-- Handling a sequence of `n` `WriteLockGrant` messages in a row, collecting
the actions in order. -/
def grantRepeatedly : Nat → List Deferred → List Deferred × List WriteLockGrantAction
  | 0, queue => (queue, [])
  | n + 1, queue =>
    let step := message_write_lock_grant queue
    let rest := grantRepeatedly n step.1
    (rest.1, step.2 :: rest.2)

/-- C3: granting the write lock `n` times consumes exactly the first `n`
entries of the deferred queue and retires them in arrival (FIFO) order, one
entry per grant — a failed validity check retires that entry with its error
without consuming another entry — and once the queue is exhausted every
further grant is a no-op. -/
theorem write_lock_grant_fifo (n : Nat) (queue : List Deferred) :
    grantRepeatedly n queue
      = (queue.drop n,
         (queue.take n).map deferredAction
           ++ List.replicate (n - queue.length) .noop) := by
  induction n generalizing queue with
  | zero => simp [grantRepeatedly]
  | succ m ih =>
    cases queue with
    | nil =>
      simp [grantRepeatedly, message_write_lock_grant, ih, List.replicate_succ]
    | cons d rest =>
      simp [grantRepeatedly, message_write_lock_grant, ih, deferredAction]

/-! ## Staged re-entry handlers

Sources: `Coordinator::message_purified_statement_ready`,
`Coordinator::message_create_connection_validation_ready`,
`Coordinator::message_alter_connection_validation_ready`.  Each handler
resumes a statement after an asynchronous gap.  The outcome of the
`PlanValidity` re-check against the live catalog and the result of the
asynchronous step are inputs; the observable effect on the client context and
on the secrets controller is the output.  Statements, params, plans and
errors are opaque and modelled as `Nat`. -/

/-- Observable effect of `message_purified_statement_ready`. -/
inductive PurifiedReadyAction where
  | handleExecuteInner (originalStmt params : Nat)
  | retireErr (e : Nat)
  | planPurified (purified params : Nat)
deriving DecidableEq, Repr

/-- Handling `PurifiedStatementReady`: if the validity re-check fails, the
original unpurified statement is re-executed from scratch; otherwise a failed
purification result retires the context with its error, and a successful one
proceeds to planning the purified statement. -/
def message_purified_statement_ready (check : Except Nat Unit)
    (result : Except Nat Nat) (originalStmt params : Nat) : PurifiedReadyAction :=
  match check with
  | .error _ => .handleExecuteInner originalStmt params
  | .ok _ =>
    match result with
    | .error e => .retireErr e
    | .ok purified => .planPurified purified params

/-- Observable effect of `message_create_connection_validation_ready` on the
client context, together with whether the provisionally reserved secret was
deleted (the id passed to `secrets_controller.delete`). -/
structure CreateConnReadyOutcome where
  secretDeleteAttempted : Option Nat
  retired : Except Nat Nat
deriving Repr

/-- Handling `CreateConnectionValidationReady`: a failed validity re-check
best-effort deletes the reserved secret and retires the context with the
staleness error; a failed validation result likewise deletes the secret and
retires with the validation error; on success the create-connection stage
finishes.  The `deleteResult` parameter is the outcome of the
`secrets_controller.delete` call, which the handler discards. -/
def message_create_connection_validation_ready (check : Except Nat Unit)
    (result : Except Nat Nat) (connectionGid : Nat)
    (deleteResult : Except Nat Unit) : CreateConnReadyOutcome :=
  match check with
  | .error e =>
    let _ := deleteResult
    { secretDeleteAttempted := some connectionGid, retired := .error e }
  | .ok _ =>
    match result with
    | .error e =>
      let _ := deleteResult
      { secretDeleteAttempted := some connectionGid, retired := .error e }
    | .ok plan =>
      { secretDeleteAttempted := none, retired := .ok plan }

/-- Observable effect of `message_alter_connection_validation_ready`. -/
def message_alter_connection_validation_ready (check : Except Nat Unit)
    (result : Except Nat Nat) : Except Nat Nat :=
  match check with
  | .error e => .error e
  | .ok _ =>
    match result with
    | .error e => .error e
    | .ok conn => .ok conn

/-- C2 fails on the code: when the `PlanValidity` re-check of
`message_create_connection_validation_ready` fails (here with error 7), the
handler retires the context with that staleness error — it surfaces the
error to the client and does not re-plan the original statement. -/
theorem create_connection_validation_surfaces_staleness :
    message_create_connection_validation_ready (.error 7) (.ok 1) 42 (.ok ())
      = { secretDeleteAttempted := some 42, retired := .error 7 } := by
  exact rfl

/-- C2 (amended): only `message_purified_statement_ready` re-plans the
original statement when the validity re-check fails; the create-connection
and alter-connection validation handlers instead surface the staleness error
to the client (the create-connection handler also best-effort deletes the
reserved secret first). -/
theorem staged_revalidation_behaviour (e : Nat) (result : Except Nat Nat)
    (originalStmt params gid : Nat) (deleteResult : Except Nat Unit) :
    message_purified_statement_ready (.error e) result originalStmt params
        = .handleExecuteInner originalStmt params
    ∧ message_create_connection_validation_ready (.error e) result gid deleteResult
        = { secretDeleteAttempted := some gid, retired := .error e }
    ∧ message_alter_connection_validation_ready (.error e) result = .error e := by
  exact ⟨rfl, rfl, rfl⟩

/-- C8: with a passing validity re-check but a failed asynchronous
validation, the create-connection handler deletes the reserved secret keyed
by the connection id, ignores the outcome of that deletion (the result is
the same whatever `deleteResult` is), and reports the original validation
error to the client. -/
theorem create_connection_validation_cleanup (e gid : Nat)
    (deleteResult : Except Nat Unit) :
    message_create_connection_validation_ready (.ok ()) (.error e) gid deleteResult
      = { secretDeleteAttempted := some gid, retired := .error e } := by
  exact rfl

/-! ## Cluster events (`message_cluster_event`)

Source: `Coordinator::message_cluster_event`.  The handler looks the event
up in `cluster_replica_statuses`; an unknown (cluster, replica) pair is
ignored.  When the reported process status differs from the recorded one, it
packs one retraction of the old status row and one insertion of the new row,
applies both as a single batch to the introspection relation, updates the
in-memory table, and broadcasts a notice only when the aggregate replica
status changed.  Indexing a process id missing from the replica map panics
in the source; the embedding returns `none` there. -/

/-- Reported status of a cluster replica process (`ClusterStatus`). -/
inductive ClusterStatus where
  | ready
  | notReady (reason : Option Nat)
deriving DecidableEq, Repr

/-- Recorded status of one replica process
(`ClusterReplicaProcessStatus`). -/
structure ClusterReplicaProcessStatus where
  status : ClusterStatus
  time : Nat
deriving DecidableEq, Repr

/-- A cluster event (`ClusterEvent`) delivered by the controller. -/
structure ClusterEvent where
  clusterId : Nat
  replicaId : Nat
  processId : Nat
  status : ClusterStatus
  time : Nat
deriving DecidableEq, Repr

/-- Per-replica map from process id to its recorded status. -/
abbrev ProcessStatuses := List (Nat × ClusterReplicaProcessStatus)

/-- The in-memory `ClusterReplicaStatuses` table, keyed by (cluster id,
replica id). -/
abbrev ClusterReplicaStatuses := List ((Nat × Nat) × ProcessStatuses)

/-- A row of the replica-status introspection relation, as packed by
`pack_cluster_replica_status_update` (the catalog renders it from the
replica id, process id and process status). -/
structure StatusRow where
  replicaId : Nat
  processId : Nat
  processStatus : ClusterReplicaProcessStatus
deriving DecidableEq, Repr

/-- Packing one introspection update: the row together with its diff. -/
def pack_cluster_replica_status_update (replicaId processId : Nat)
    (processStatus : ClusterReplicaProcessStatus) (diff : Int) :
    StatusRow × Int :=
  (⟨replicaId, processId, processStatus⟩, diff)

/-- Modelled from the spec: `ClusterReplicaStatuses::ensure_cluster_status`
(its body lives outside the reviewed source) records the new status of one
replica process in the in-memory table, a mapping keyed by (cluster id,
replica id) to a mapping keyed by process id. -/
def ensure_cluster_status (statuses : ClusterReplicaStatuses)
    (clusterId replicaId processId : Nat)
    (newStatus : ClusterReplicaProcessStatus) : ClusterReplicaStatuses :=
  statuses.map fun entry =>
    if entry.1 = (clusterId, replicaId) then
      (entry.1,
        entry.2.map fun p => if p.1 = processId then (p.1, newStatus) else p)
    else entry

/-- Observable outcome of `message_cluster_event`: the updated table, the
batch of introspection updates, and the notice broadcast (the new aggregate
status) when one is emitted. -/
structure ClusterEventResult where
  statuses : ClusterReplicaStatuses
  builtinTableUpdates : List (StatusRow × Int)
  notice : Option ClusterStatus
deriving DecidableEq, Repr

/-- Handling one `ClusterEvent`.  `aggregate` is
`ClusterReplicaStatuses::cluster_replica_status`, the user-visible aggregate
status of a replica computed from its process statuses (external to the
reviewed source).  The result is `none` when the source would panic (a
process id absent from an existing replica entry). -/
def message_cluster_event (aggregate : ProcessStatuses → ClusterStatus)
    (statuses : ClusterReplicaStatuses) (event : ClusterEvent) :
    Option ClusterEventResult :=
  match lookupA statuses (event.clusterId, event.replicaId) with
  | none =>
    -- A status update for a replica already dropped from the catalog is
    -- ignored.
    some ⟨statuses, [], none⟩
  | some replicaStatuses =>
    match lookupA replicaStatuses event.processId with
    | none => none
    | some oldProcessStatus =>
      if event.status ≠ oldProcessStatus.status then
        let oldReplicaStatus := aggregate replicaStatuses
        let builtinTableRetraction := pack_cluster_replica_status_update
          event.replicaId event.processId oldProcessStatus (-1)
        let newProcessStatus : ClusterReplicaProcessStatus :=
          ⟨event.status, event.time⟩
        let builtinTableAddition := pack_cluster_replica_status_update
          event.replicaId event.processId newProcessStatus 1
        let statuses' := ensure_cluster_status statuses event.clusterId
          event.replicaId event.processId newProcessStatus
        let newReplicaStatuses :=
          (lookupA statuses' (event.clusterId, event.replicaId)).getD []
        let newReplicaStatus := aggregate newReplicaStatuses
        some ⟨statuses',
          [builtinTableRetraction, builtinTableAddition],
          if oldReplicaStatus ≠ newReplicaStatus
            then some newReplicaStatus else none⟩
      else
        some ⟨statuses, [], none⟩

/-- C5: for a cluster event naming an existing replica process, a reported
status different from the recorded one yields exactly one batch of exactly
two introspection updates — the retraction (diff -1) of the old status row
followed by the insertion (diff +1) of the new row — while a reported status
equal to the recorded one yields no update at all. -/
theorem cluster_event_diff_symmetry
    (aggregate : ProcessStatuses → ClusterStatus)
    (statuses : ClusterReplicaStatuses) (event : ClusterEvent)
    (replicaStatuses : ProcessStatuses)
    (oldProcessStatus : ClusterReplicaProcessStatus)
    (hr : lookupA statuses (event.clusterId, event.replicaId)
      = some replicaStatuses)
    (hp : lookupA replicaStatuses event.processId = some oldProcessStatus) :
    (event.status ≠ oldProcessStatus.status →
      (message_cluster_event aggregate statuses event).map
          (fun r => r.builtinTableUpdates)
        = some [(⟨event.replicaId, event.processId, oldProcessStatus⟩, -1),
                (⟨event.replicaId, event.processId, ⟨event.status, event.time⟩⟩, 1)])
    ∧ (event.status = oldProcessStatus.status →
      message_cluster_event aggregate statuses event
        = some ⟨statuses, [], none⟩) := by
  constructor
  · intro hne
    simp [message_cluster_event, hr, hp, hne, pack_cluster_replica_status_update]
  · intro heq
    simp [message_cluster_event, hr, hp, heq]

theorem cluster_event_diff_symmetry_witness :
    (message_cluster_event (fun _ => .ready)
        [((0, 1), [(0, ⟨.ready, 5⟩)])] ⟨0, 1, 0, .notReady none, 9⟩).map
        (fun r => r.builtinTableUpdates)
      = some [(⟨1, 0, ⟨.ready, 5⟩⟩, -1), (⟨1, 0, ⟨.notReady none, 9⟩⟩, 1)] :=
  (cluster_event_diff_symmetry (fun _ => .ready)
    [((0, 1), [(0, ⟨.ready, 5⟩)])] ⟨0, 1, 0, .notReady none, 9⟩
    [(0, ⟨.ready, 5⟩)] ⟨.ready, 5⟩ (by decide) (by decide)).1 (by decide)

/-- C10: a cluster event whose (cluster id, replica id) pair is absent from
the replica status table is ignored — the table is returned unchanged, no
introspection update is produced and no notice is broadcast. -/
theorem cluster_event_unknown_replica_ignored
    (aggregate : ProcessStatuses → ClusterStatus)
    (statuses : ClusterReplicaStatuses) (event : ClusterEvent)
    (h : lookupA statuses (event.clusterId, event.replicaId) = none) :
    message_cluster_event aggregate statuses event
      = some ⟨statuses, [], none⟩ := by
  simp [message_cluster_event, h]

theorem cluster_event_unknown_replica_ignored_witness :
    message_cluster_event (fun _ => .ready)
      [((3, 3), [(0, ⟨.ready, 5⟩)])] ⟨0, 1, 0, .notReady none, 9⟩
      = some ⟨[((3, 3), [(0, ⟨.ready, 5⟩)])], [], none⟩ :=
  cluster_event_unknown_replica_ignored (fun _ => .ready)
    [((3, 3), [(0, ⟨.ready, 5⟩)])] ⟨0, 1, 0, .notReady none, 9⟩ (by decide)

/-! ## Storage-usage scheduling (`schedule_storage_usage_collection`)

Source: `Coordinator::schedule_storage_usage_collection`.  The next
collection instant is computed from the organization id of the deployment,
the collection interval and the current timestamp; the handler then sleeps
until that instant and posts `StorageUsageFetch`. -/

/-- Length of the PRNG seed array in the source (`SEED_LEN`). -/
def SEED_LEN : Nat := 32

/-- The PRNG seed: a 32-byte zero array whose first bytes are the bytes of
the organization id of the deployment (at most `SEED_LEN` of them). -/
def storageUsageSeed (organizationIdBytes : List Nat) : List Nat :=
  organizationIdBytes.take SEED_LEN
    ++ List.replicate (SEED_LEN - organizationIdBytes.length) 0

/-- The next storage-usage collection instant.  `genRange seed n` models
`SmallRng::from_seed(seed).gen_range(0..n)` from the external rand crate,
whose contract makes it a pure function of the seed; it is therefore passed
in as a function parameter.  The previous collection instant is the most
recent interval boundary plus the seeded offset; if it is not strictly after
`nowTs` the next instant is one interval later. -/
def schedule_storage_usage_collection (genRange : List Nat → Nat → Nat)
    (organizationIdBytes : List Nat)
    (storageUsageCollectionIntervalMs nowTs : Nat) : Nat :=
  let offset := genRange (storageUsageSeed organizationIdBytes)
    storageUsageCollectionIntervalMs
  let previousCollectionTs :=
    (nowTs - nowTs % storageUsageCollectionIntervalMs) + offset
  if previousCollectionTs > nowTs then previousCollectionTs
  else previousCollectionTs + storageUsageCollectionIntervalMs

/-- C9: two executions of storage-usage scheduling with the same
organization id, the same collection interval and the same current timestamp
compute the identical next-collection instant; and that instant is the most
recent interval boundary (the largest multiple of the interval not above
now) plus the offset derived deterministically from the organization id,
advanced by one interval when that instant is not strictly in the future. -/
theorem storage_usage_schedule_deterministic
    (genRange : List Nat → Nat → Nat) (org1 org2 : List Nat)
    (i1 i2 now1 now2 : Nat) (horg : org1 = org2) (hi : i1 = i2)
    (hnow : now1 = now2) (hpos : 0 < i1) :
    schedule_storage_usage_collection genRange org1 i1 now1
      = schedule_storage_usage_collection genRange org2 i2 now2
    ∧ ((now1 < i1 * (now1 / i1) + genRange (storageUsageSeed org1) i1 →
        schedule_storage_usage_collection genRange org1 i1 now1
          = i1 * (now1 / i1) + genRange (storageUsageSeed org1) i1)
      ∧ (¬ now1 < i1 * (now1 / i1) + genRange (storageUsageSeed org1) i1 →
        schedule_storage_usage_collection genRange org1 i1 now1
          = i1 * (now1 / i1) + genRange (storageUsageSeed org1) i1 + i1)) := by
  subst horg
  subst hi
  subst hnow
  refine ⟨rfl, ?_, ?_⟩ <;>
    · intro h
      have hdm := Nat.div_add_mod now1 i1
      simp only [schedule_storage_usage_collection]
      split <;> omega

theorem storage_usage_schedule_deterministic_witness :
    (0 : Nat) < 100
    ∧ schedule_storage_usage_collection (fun s n => s.headD 0 % n) [7] 100 250
        = schedule_storage_usage_collection (fun s n => s.headD 0 % n) [7] 100 250 :=
  ⟨by decide,
    (storage_usage_schedule_deterministic (fun s n => s.headD 0 % n)
      [7] [7] 100 100 250 250 rfl rfl rfl (by decide)).1⟩
